import Mathlib

/-!
Verification of the StelLang tree-walking interpreter specification.

Modelled from the spec: the repository snapshot contains only the example
program `src/stellang/src/main.stl`, documentation, web material and chat-bot
tooling; the Rust sources of the interpreter core (lexer, parser, evaluator,
built-in registry, pattern matcher, exception propagation) are not present.
All definitions below are therefore a shallow embedding modelled from the
natural-language specification (spec.md sections 3 to 4.7): the Value and
Environment data model, the control-signal evaluator, the pattern matcher and
the built-in functions exercised by the example program.  Machine floats are
modelled as exact rationals (the spec's claims about Float only concern the
kind of the result, never rounding), environments are an arena of frames
addressed by index (the spec's reference-counted shared environments), and
`print` records the exact list of argument Values written, abstracting from
the space-joined textual rendering.  Evaluation is fuel-indexed so that every
function is structurally recursive and computable.
-/

namespace StelLang

/-- A pattern of a `match` arm: wildcard, a literal (the parser only produces
literal tokens here), or an inclusive numeric range, as in spec section 4.5. -/
inductive Pat where
| wild
| ilit (n : Int)
| flit (q : Rat)
| slit (s : String)
| blit (b : Bool)
| nlit
| irange (lo hi : Int)
deriving Repr

/-- Binary operators needed by the claims (spec section 4.3 operator table). -/
inductive BinOp where
| add
| sub
| mul
| mod
| eq
| lt
| gt
deriving Repr

mutual
/-- Modelled from the spec: expression AST nodes (spec section 3, AST node). -/
inductive Expr where
| intLit (n : Int)
| floatLit (q : Rat)
| strLit (s : String)
| boolLit (b : Bool)
| nullLit
| ident (x : String)
| binop (op : BinOp) (l r : Expr)
| listLit (es : List Expr)
| lambda (params : List String) (body : List Stmt)
| call (f : Expr) (args : List Expr)
| matchE (subj : Expr) (arms : List (Pat × Expr))

/-- Modelled from the spec: statement AST nodes (spec section 3, AST node). -/
inductive Stmt where
| exprS (e : Expr)
| letS (x : String) (e : Expr)
| constS (x : String) (e : Expr)
| assignS (x : String) (e : Expr)
| fnDef (name : String) (params : List String) (body : List Stmt)
| retS (e : Expr)
| ifS (c : Expr) (thenB elseB : List Stmt)
| whileS (c : Expr) (body : List Stmt)
| brkS
| contS
| tryCatchS (tryB : List Stmt) (exc : String) (catchB : List Stmt)
end

/-- Modelled from the spec: runtime Values (spec section 3, Value).  A closure
stores the index of the environment active at its definition point. -/
inductive Value where
| int (n : Int)
| float (q : Rat)
| str (s : String)
| bool (b : Bool)
| null
| list (elems : List Value)
| closure (params : List String) (body : List Stmt) (env : Nat)
| native (name : String)

/-- One name binding: its value and whether re-assignment is allowed
(`const` bindings carry `mut = false`, spec section 3 Environment (d)). -/
structure Binding where
  val : Value
  mutb : Bool

/-- Modelled from the spec: one Environment frame with an optional parent link
(spec section 3, Environment). -/
structure EnvFrame where
  parent : Option Nat
  binds : List (String × Binding)

/-- Interpreter state: the arena of environment frames (shared-owned
environments addressed by index, spec section 3 Environment (c)) and the
ordered output channel: each `print` appends the list of its argument
Values. -/
structure St where
  envs : List EnvFrame
  out : List (List Value)

/-- Runtime error taxonomy (spec section 7). -/
inductive RtErr where
| nameError (kind : String) (name : String)
| typeError (msg : String)
| arityError (fname : String)
| nonExhaustiveMatchError
deriving Repr

/-- The evaluation outcome of spec section 4.3: a normal value, a propagating
control signal, a runtime error travelling on the same channel, or fuel
exhaustion (an artifact of the fuel-indexed embedding, not of the language). -/
inductive Ctl where
| norm (v : Value)
| ret (v : Value)
| brk
| cont
| thrw (v : Value)
| err (e : RtErr)
| fuelOut

/-- Work items of the evaluator: evaluating an expression, an argument list,
a statement, a statement list, the arms of a match, a function-value call, a
built-in application, or one of the higher-order built-in loops. -/
inductive Job where
| jexpr (env : Nat) (e : Expr)
| jargs (env : Nat) (es : List Expr)
| jstmt (env : Nat) (s : Stmt)
| jstmts (env : Nat) (ss : List Stmt)
| jarms (env : Nat) (v : Value) (arms : List (Pat × Expr))
| jcall (fv : Value) (args : List Value)
| jbuiltin (name : String) (args : List Value)
| jmap (f : Value) (vs : List Value)
| jfilter (f : Value) (vs : List Value)
| jfind (f : Value) (vs : List Value)
| jreduce (f : Value) (acc : Value) (vs : List Value)
| jall (f : Value) (vs : List Value)
| jany (f : Value) (vs : List Value)

/-- Find a binding in one frame's association list. -/
def frBindGet (bs : List (String × Binding)) (x : String) : Option Binding :=
  match bs with
  | [] => none
  | (y, b) :: rest => if y == x then some b else frBindGet rest x

/-- Insert or update a binding in one frame's association list. -/
def frBindSet (bs : List (String × Binding)) (x : String) (b : Binding) :
    List (String × Binding) :=
  match bs with
  | [] => [(x, b)]
  | (y, c) :: rest => if y == x then (y, b) :: rest else (y, c) :: frBindSet rest x b

/-- Walk the parent chain looking for the frame that defines `x`
(spec section 3, Environment (a)); the step counter bounds arbitrary states. -/
def resolveAux (envs : List EnvFrame) (x : String) : Nat → Nat → Option (Nat × Binding)
  | 0, _ => none
  | steps + 1, i =>
    match envs.get? i with
    | none => none
    | some fr =>
      match frBindGet fr.binds x with
      | some b => some (i, b)
      | none =>
        match fr.parent with
        | some p => resolveAux envs x steps p
        | none => none

/-- Resolve a name to its defining frame and binding. -/
def resolve (st : St) (env : Nat) (x : String) : Option (Nat × Binding) :=
  resolveAux st.envs x st.envs.length env

/-- The names of the built-in registry entries modelled here (spec section
4.4); they are consulted after user bindings, so user bindings shadow them. -/
def builtinTable : List String :=
  ["print", "throw", "len", "sort", "join", "split",
   "map", "filter", "find", "reduce", "all", "any"]

/-- Name lookup: nearest enclosing user binding, then the built-in registry,
else a NameError (spec sections 3 and 4.4). -/
def lookupValue (st : St) (env : Nat) (x : String) : Except RtErr Value :=
  match resolve st env x with
  | some (_, b) => .ok b.val
  | none =>
    if builtinTable.contains x then .ok (.native x)
    else .error (.nameError "unbound" x)

/-- Define (or overwrite) a binding in the given frame itself. -/
def defineVar (st : St) (env : Nat) (x : String) (v : Value) (m : Bool) : St :=
  match st.envs.get? env with
  | some fr => ⟨st.envs.set env ⟨fr.parent, frBindSet fr.binds x ⟨v, m⟩⟩, st.out⟩
  | none => st

/-- Assignment: update the defining frame if the binding is mutable, fail with
the NameError "immutable" kind if it was introduced by `const`, and create the
binding in the current frame when the name is unresolved (the example program
assigns to fresh names at top level). -/
def setVar (st : St) (env : Nat) (x : String) (v : Value) : St × Option RtErr :=
  match resolve st env x with
  | some (i, b) =>
    if b.mutb then
      match st.envs.get? i with
      | some fr => (⟨st.envs.set i ⟨fr.parent, frBindSet fr.binds x ⟨v, true⟩⟩, st.out⟩, none)
      | none => (st, none)
    else (st, some (.nameError "immutable" x))
  | none => (defineVar st env x v true, none)

/-- Allocate a fresh child frame; returns the new state and the frame index. -/
def pushFrame (st : St) (parent : Nat) (bs : List (String × Binding)) : St × Nat :=
  (⟨st.envs ++ [⟨some parent, bs⟩], st.out⟩, st.envs.length)

/-- Fuel-indexed structural equality on lists of Values (containers compare
element-wise, function values never compare equal; spec section 3, Value). -/
def valuesEqF : Nat → List Value → List Value → Bool
  | _, [], [] => true
  | 0, _, _ => false
  | fu + 1, v :: vs, w :: ws =>
    (match v, w with
     | .int a, .int b => a == b
     | .float a, .float b => a == b
     | .str a, .str b => a == b
     | .bool a, .bool b => a == b
     | .null, .null => true
     | .list as, .list bs => valuesEqF fu as bs
     | _, _ => false) && valuesEqF fu vs ws
  | _, _, _ => false

/-- Truthiness (spec section 4.3): 0, 0.0, the empty string, the empty list,
null and false are falsy, everything else truthy. -/
def truthyB : Value → Bool
  | .int n => !(n == 0)
  | .float q => !(q == 0)
  | .str s => !(s == "")
  | .bool b => b
  | .null => false
  | .list l => !l.isEmpty
  | .closure _ _ _ => true
  | .native _ => true

/-- Pattern matching of one arm pattern against the subject (spec section
4.5): wildcard, structurally-equal literal, or inclusive numeric range. -/
def patMatches (v : Value) : Pat → Bool
  | .wild => true
  | .ilit n => match v with | .int m => m == n | _ => false
  | .flit q => match v with | .float r => r == q | _ => false
  | .slit s => match v with | .str t => t == s | _ => false
  | .blit b => match v with | .bool c => c == b | _ => false
  | .nlit => match v with | .null => true | _ => false
  | .irange lo hi =>
    match v with
    | .int m => decide (lo ≤ m) && decide (m ≤ hi)
    | .float q => decide ((lo : Rat) ≤ q) && decide (q ≤ (hi : Rat))
    | _ => false

/-- String repetition for the `*` operator on Str and Int (spec section 4.3). -/
def strRepeat (s : String) (n : Int) : String :=
  String.join (List.replicate n.toNat s)

/-- Binary operator semantics (spec section 4.3): `+` overloaded on numbers
(Int promotes to Float) and strings; comparisons need mutually ordered
operands; function values are not comparable.  The fuel argument bounds the
recursion of structural container equality (the evaluator passes its own
fuel, always sufficient for primitive comparisons). -/
def applyBin (fu : Nat) : BinOp → Value → Value → Except RtErr Value
  | .add, .int a, .int b => .ok (.int (a + b))
  | .add, .float a, .float b => .ok (.float (a + b))
  | .add, .int a, .float b => .ok (.float ((a : Rat) + b))
  | .add, .float a, .int b => .ok (.float (a + (b : Rat)))
  | .add, .str a, .str b => .ok (.str (a ++ b))
  | .add, _, _ => .error (.typeError "bad operands for addition")
  | .sub, .int a, .int b => .ok (.int (a - b))
  | .sub, .float a, .float b => .ok (.float (a - b))
  | .sub, .int a, .float b => .ok (.float ((a : Rat) - b))
  | .sub, .float a, .int b => .ok (.float (a - (b : Rat)))
  | .sub, _, _ => .error (.typeError "bad operands for subtraction")
  | .mul, .int a, .int b => .ok (.int (a * b))
  | .mul, .float a, .float b => .ok (.float (a * b))
  | .mul, .int a, .float b => .ok (.float ((a : Rat) * b))
  | .mul, .float a, .int b => .ok (.float (a * (b : Rat)))
  | .mul, .str a, .int b => .ok (.str (strRepeat a b))
  | .mul, _, _ => .error (.typeError "bad operands for multiplication")
  | .mod, .int a, .int b =>
    if b == 0 then .error (.typeError "modulo by zero") else .ok (.int (a % b))
  | .mod, _, _ => .error (.typeError "bad operands for modulo")
  | .eq, .closure _ _ _, _ => .error (.typeError "function values are not comparable")
  | .eq, _, .closure _ _ _ => .error (.typeError "function values are not comparable")
  | .eq, .native _, _ => .error (.typeError "function values are not comparable")
  | .eq, _, .native _ => .error (.typeError "function values are not comparable")
  | .eq, v, w => .ok (.bool (valuesEqF fu [v] [w]))
  | .lt, .int a, .int b => .ok (.bool (decide (a < b)))
  | .lt, .float a, .float b => .ok (.bool (decide (a < b)))
  | .lt, .int a, .float b => .ok (.bool (decide ((a : Rat) < b)))
  | .lt, .float a, .int b => .ok (.bool (decide (a < (b : Rat))))
  | .lt, .str a, .str b => .ok (.bool (decide (a < b)))
  | .lt, _, _ => .error (.typeError "operands are not mutually ordered")
  | .gt, .int a, .int b => .ok (.bool (decide (b < a)))
  | .gt, .float a, .float b => .ok (.bool (decide (b < a)))
  | .gt, .int a, .float b => .ok (.bool (decide (b < (a : Rat))))
  | .gt, .float a, .int b => .ok (.bool (decide ((b : Rat) < a)))
  | .gt, .str a, .str b => .ok (.bool (decide (b < a)))
  | .gt, _, _ => .error (.typeError "operands are not mutually ordered")

/-- Value ordering used by the `sort` built-in: numeric-numeric and Str-Str
comparisons as in spec section 4.3. -/
def vleB : Value → Value → Bool
  | .int a, .int b => decide (a ≤ b)
  | .float a, .float b => decide (a ≤ b)
  | .int a, .float b => decide ((a : Rat) ≤ b)
  | .float a, .int b => decide (a ≤ (b : Rat))
  | .str a, .str b => a == b || decide (a < b)
  | _, _ => true

/-- Ordered insertion for the value-returning `sort` built-in. -/
def insertV (x : Value) : List Value → List Value
  | [] => [x]
  | y :: rest => if vleB x y then x :: y :: rest else y :: insertV x rest

/-- The `sort` built-in's result: a new sorted list, the argument untouched
(spec section 4.4: value-returning, not in-place). -/
def sortV : List Value → List Value
  | [] => []
  | x :: rest => insertV x (sortV rest)

/-- Fuel-indexed splitting of a character list on a separator occurrence
(leftmost-first); the fuel is the length of the input, consumed one character
or one separator occurrence at a time. -/
def splitChF (sep : List Char) : Nat → List Char → List (List Char)
  | _, [] => [[]]
  | 0, a :: s => [a :: s]
  | fu + 1, a :: s =>
    if sep ≠ [] ∧ sep.isPrefixOf (a :: s) = true then
      [] :: splitChF sep fu ((a :: s).drop sep.length)
    else
      match splitChF sep fu s with
      | [] => [[a]]
      | t :: ts => (a :: t) :: ts

/-- Split a character list on every occurrence of the separator. -/
def splitCh (sep s : List Char) : List (List Char) :=
  splitChF sep s.length s

/-- Join character lists with the separator between consecutive pieces. -/
def joinChars (sep : List Char) : List (List Char) → List Char
  | [] => []
  | [x] => x
  | x :: y :: rest => x ++ sep ++ joinChars sep (y :: rest)

/-- The characters a Value contributes to `join` (strings contribute their
content, integers their decimal rendering). -/
def valChars : Value → List Char
  | .str s => s.data
  | .int n => (toString n).data
  | _ => []

/-- The `split` built-in on strings. -/
def splitS (s sep : String) : List Value :=
  (splitCh sep.data s.data).map (fun cs => .str (String.mk cs))

/-- The `join` built-in on a list of values and a string separator. -/
def joinS (l : List Value) (sep : String) : String :=
  String.mk (joinChars sep.data (l.map valChars))

/-- Render a runtime error as the Value bound by `catch` when a
runtime-category error travels the Throw channel (spec section 7). -/
def errValue : RtErr → Value
  | .nameError kind x => .str ("NameError " ++ kind ++ " " ++ x)
  | .typeError m => .str ("TypeError " ++ m)
  | .arityError f => .str ("ArityError " ++ f)
  | .nonExhaustiveMatchError => .str "NonExhaustiveMatchError"

/-- Modelled from the spec: the evaluator of spec sections 4.3 to 4.7, as one
fuel-indexed function over work items.  Every recursive call decreases the
fuel, so the definition is structural and concrete programs evaluate by
`rfl`.  Statements yield `norm` to continue or a propagating signal;
`while` absorbs Break/Continue, calls absorb Return, `try` absorbs Throw and
runtime errors, `match` tests arms in declaration order. -/
def eval : Nat → St → Job → St × Ctl
  | 0, st, _ => (st, .fuelOut)
  | fuel + 1, st, job =>
    match job with
    | .jexpr env e =>
      match e with
      | .intLit n => (st, .norm (.int n))
      | .floatLit q => (st, .norm (.float q))
      | .strLit s => (st, .norm (.str s))
      | .boolLit b => (st, .norm (.bool b))
      | .nullLit => (st, .norm .null)
      | .ident x =>
        match lookupValue st env x with
        | .ok v => (st, .norm v)
        | .error er => (st, .err er)
      | .binop op l r =>
        match eval fuel st (.jexpr env l) with
        | (st1, .norm a) =>
          match eval fuel st1 (.jexpr env r) with
          | (st2, .norm b) =>
            match applyBin fuel op a b with
            | .ok v => (st2, .norm v)
            | .error er => (st2, .err er)
          | other => other
        | other => other
      | .listLit es => eval fuel st (.jargs env es)
      | .lambda ps body => (st, .norm (.closure ps body env))
      | .call f args =>
        match eval fuel st (.jexpr env f) with
        | (st1, .norm fv) =>
          match eval fuel st1 (.jargs env args) with
          | (st2, .norm (.list vs)) => eval fuel st2 (.jcall fv vs)
          | (st2, .norm _) => (st2, .err (.typeError "internal"))
          | other => other
        | other => other
      | .matchE subj arms =>
        match eval fuel st (.jexpr env subj) with
        | (st1, .norm v) => eval fuel st1 (.jarms env v arms)
        | other => other
    | .jargs env es =>
      match es with
      | [] => (st, .norm (.list []))
      | e :: rest =>
        match eval fuel st (.jexpr env e) with
        | (st1, .norm v) =>
          match eval fuel st1 (.jargs env rest) with
          | (st2, .norm (.list vs)) => (st2, .norm (.list (v :: vs)))
          | other => other
        | other => other
    | .jarms env v arms =>
      match arms with
      | [] => (st, .err .nonExhaustiveMatchError)
      | (p, b) :: rest =>
        if patMatches v p then eval fuel st (.jexpr env b)
        else eval fuel st (.jarms env v rest)
    | .jstmt env s =>
      match s with
      | .exprS e =>
        match eval fuel st (.jexpr env e) with
        | (st1, .norm _) => (st1, .norm .null)
        | other => other
      | .letS x e =>
        match eval fuel st (.jexpr env e) with
        | (st1, .norm v) => (defineVar st1 env x v true, .norm .null)
        | other => other
      | .constS x e =>
        match eval fuel st (.jexpr env e) with
        | (st1, .norm v) => (defineVar st1 env x v false, .norm .null)
        | other => other
      | .assignS x e =>
        match eval fuel st (.jexpr env e) with
        | (st1, .norm v) =>
          match setVar st1 env x v with
          | (st2, none) => (st2, .norm .null)
          | (st2, some er) => (st2, .err er)
        | other => other
      | .fnDef f ps body => (defineVar st env f (.closure ps body env) true, .norm .null)
      | .retS e =>
        match eval fuel st (.jexpr env e) with
        | (st1, .norm v) => (st1, .ret v)
        | other => other
      | .ifS c thenB elseB =>
        match eval fuel st (.jexpr env c) with
        | (st1, .norm v) =>
          let pr := pushFrame st1 env []
          if truthyB v then eval fuel pr.1 (.jstmts pr.2 thenB)
          else eval fuel pr.1 (.jstmts pr.2 elseB)
        | other => other
      | .whileS c body =>
        match eval fuel st (.jexpr env c) with
        | (st1, .norm v) =>
          if truthyB v then
            let pr := pushFrame st1 env []
            match eval fuel pr.1 (.jstmts pr.2 body) with
            | (st2, .brk) => (st2, .norm .null)
            | (st2, .norm _) => eval fuel st2 (.jstmt env (.whileS c body))
            | (st2, .cont) => eval fuel st2 (.jstmt env (.whileS c body))
            | other => other
          else (st1, .norm .null)
        | other => other
      | .brkS => (st, .brk)
      | .contS => (st, .cont)
      | .tryCatchS tryB exc catchB =>
        let pr := pushFrame st env []
        match eval fuel pr.1 (.jstmts pr.2 tryB) with
        | (st2, .thrw v) =>
          let pc := pushFrame st2 pr.2 [(exc, ⟨v, true⟩)]
          eval fuel pc.1 (.jstmts pc.2 catchB)
        | (st2, .err er) =>
          let pc := pushFrame st2 pr.2 [(exc, ⟨errValue er, true⟩)]
          eval fuel pc.1 (.jstmts pc.2 catchB)
        | other => other
    | .jstmts env ss =>
      match ss with
      | [] => (st, .norm .null)
      | s :: rest =>
        match eval fuel st (.jstmt env s) with
        | (st1, .norm _) => eval fuel st1 (.jstmts env rest)
        | other => other
    | .jcall fv args =>
      match fv with
      | .closure ps body defEnv =>
        if ps.length == args.length then
          let pr := pushFrame st defEnv (ps.zip (args.map (fun a => ⟨a, true⟩)))
          match eval fuel pr.1 (.jstmts pr.2 body) with
          | (st2, .ret v) => (st2, .norm v)
          | (st2, .norm _) => (st2, .norm .null)
          | other => other
        else (st, .err (.arityError "fn"))
      | .native name => eval fuel st (.jbuiltin name args)
      | _ => (st, .err (.typeError "value is not callable"))
    | .jbuiltin name args =>
      match name with
      | "print" => (⟨st.envs, st.out ++ [args]⟩, .norm .null)
      | "throw" =>
        match args with
        | [v] => (st, .thrw v)
        | _ => (st, .err (.arityError "throw"))
      | "len" =>
        match args with
        | [.str s] => (st, .norm (.int (s.length : Int)))
        | [.list l] => (st, .norm (.int (l.length : Int)))
        | _ => (st, .err (.typeError "len expects a string or a list"))
      | "sort" =>
        match args with
        | [.list l] => (st, .norm (.list (sortV l)))
        | _ => (st, .err (.typeError "sort expects a list"))
      | "join" =>
        match args with
        | [.list l, .str sep] => (st, .norm (.str (joinS l sep)))
        | _ => (st, .err (.typeError "join expects a list and a string"))
      | "split" =>
        match args with
        | [.str s, .str sep] => (st, .norm (.list (splitS s sep)))
        | _ => (st, .err (.typeError "split expects two strings"))
      | "map" =>
        match args with
        | [.list l, f] => eval fuel st (.jmap f l)
        | _ => (st, .err (.typeError "map expects a list and a function"))
      | "filter" =>
        match args with
        | [.list l, f] => eval fuel st (.jfilter f l)
        | _ => (st, .err (.typeError "filter expects a list and a function"))
      | "find" =>
        match args with
        | [.list l, f] => eval fuel st (.jfind f l)
        | _ => (st, .err (.typeError "find expects a list and a function"))
      | "reduce" =>
        match args with
        | [.list l, f, init] => eval fuel st (.jreduce f init l)
        | _ => (st, .err (.typeError "reduce expects a list, a function and an initial value"))
      | "all" =>
        match args with
        | [.list l, f] => eval fuel st (.jall f l)
        | _ => (st, .err (.typeError "all expects a list and a function"))
      | "any" =>
        match args with
        | [.list l, f] => eval fuel st (.jany f l)
        | _ => (st, .err (.typeError "any expects a list and a function"))
      | _ => (st, .err (.nameError "unbound" name))
    | .jmap f vs =>
      match vs with
      | [] => (st, .norm (.list []))
      | x :: rest =>
        match eval fuel st (.jcall f [x]) with
        | (st1, .norm v) =>
          match eval fuel st1 (.jmap f rest) with
          | (st2, .norm (.list ws)) => (st2, .norm (.list (v :: ws)))
          | other => other
        | other => other
    | .jfilter f vs =>
      match vs with
      | [] => (st, .norm (.list []))
      | x :: rest =>
        match eval fuel st (.jcall f [x]) with
        | (st1, .norm v) =>
          match eval fuel st1 (.jfilter f rest) with
          | (st2, .norm (.list ws)) =>
            if truthyB v then (st2, .norm (.list (x :: ws)))
            else (st2, .norm (.list ws))
          | other => other
        | other => other
    | .jfind f vs =>
      match vs with
      | [] => (st, .norm .null)
      | x :: rest =>
        match eval fuel st (.jcall f [x]) with
        | (st1, .norm v) =>
          if truthyB v then (st1, .norm x)
          else eval fuel st1 (.jfind f rest)
        | other => other
    | .jreduce f acc vs =>
      match vs with
      | [] => (st, .norm acc)
      | x :: rest =>
        match eval fuel st (.jcall f [acc, x]) with
        | (st1, .norm acc2) => eval fuel st1 (.jreduce f acc2 rest)
        | other => other
    | .jall f vs =>
      match vs with
      | [] => (st, .norm (.bool true))
      | x :: rest =>
        match eval fuel st (.jcall f [x]) with
        | (st1, .norm v) =>
          if truthyB v then eval fuel st1 (.jall f rest)
          else (st1, .norm (.bool false))
        | other => other
    | .jany f vs =>
      match vs with
      | [] => (st, .norm (.bool false))
      | x :: rest =>
        match eval fuel st (.jcall f [x]) with
        | (st1, .norm v) =>
          if truthyB v then (st1, .norm (.bool true))
          else eval fuel st1 (.jany f rest)
        | other => other

/-- The initial state: one root frame, empty output. -/
def initSt : St := ⟨[⟨none, []⟩], []⟩

/-- Run a whole program (a top-level statement list) from the initial state
with the given fuel. -/
def runProg (fuel : Nat) (prog : List Stmt) : St × Ctl :=
  eval fuel initSt (.jstmts 0 prog)

/-- Is the value an Int? -/
def isIntV : Value → Bool
  | .int _ => true
  | _ => false

/-- All elements of the list are Int values. -/
def allIntB (l : List Value) : Bool := l.all isIntV

/-- Adjacent elements are in `vleB` order. -/
def chainLeB : List Value → Bool
  | [] => true
  | [_] => true
  | x :: y :: rest => vleB x y && chainLeB (y :: rest)

theorem insertV_perm (x : Value) : ∀ l : List Value, (insertV x l).Perm (x :: l) := by
  intro l
  induction l with
  | nil => exact List.Perm.refl _
  | cons y rest ih =>
    by_cases h : vleB x y = true
    · simp [insertV, h]
    · simp only [insertV, h, if_false]
      exact (ih.cons y).trans (List.Perm.swap x y rest)

theorem sortV_perm : ∀ l : List Value, (sortV l).Perm l := by
  intro l
  induction l with
  | nil => exact List.Perm.refl _
  | cons x rest ih => exact (insertV_perm x (sortV rest)).trans (ih.cons x)

theorem vleB_int_total (a b : Int) :
    vleB (.int a) (.int b) = true ∨ vleB (.int b) (.int a) = true := by
  simp only [vleB, decide_eq_true_eq]
  omega

theorem chainLeB_insertV (x : Value) :
    ∀ l : List Value, (∀ y ∈ l, vleB x y = true ∨ vleB y x = true) →
      chainLeB l = true → chainLeB (insertV x l) = true := by
  intro l
  induction l with
  | nil => intro _ _; rfl
  | cons y rest ih =>
    intro htot hchain
    by_cases h : vleB x y = true
    · have e : insertV x (y :: rest) = x :: y :: rest := by simp [insertV, h]
      rw [e]
      simp only [chainLeB, Bool.and_eq_true]
      exact ⟨h, hchain⟩
    · have hyx : vleB y x = true := (htot y (by simp)).resolve_left h
      have e : insertV x (y :: rest) = y :: insertV x rest := by simp [insertV, h]
      rw [e]
      cases rest with
      | nil => simp [insertV, chainLeB, hyx]
      | cons z rest2 =>
        have hchain2 : vleB y z = true ∧ chainLeB (z :: rest2) = true := by
          simpa [chainLeB, Bool.and_eq_true] using hchain
        have hrec : chainLeB (insertV x (z :: rest2)) = true :=
          ih (fun w hw => htot w (by simp [hw])) hchain2.2
        by_cases hz : vleB x z = true
        · have e2 : insertV x (z :: rest2) = x :: z :: rest2 := by simp [insertV, hz]
          rw [e2]
          simp only [chainLeB, Bool.and_eq_true]
          refine ⟨hyx, hz, ?_⟩
          simpa [chainLeB, Bool.and_eq_true] using hchain2.2
        · have e2 : insertV x (z :: rest2) = z :: insertV x rest2 := by simp [insertV, hz]
          rw [e2] at hrec ⊢
          simp only [chainLeB, Bool.and_eq_true]
          refine ⟨hchain2.1, ?_⟩
          cases hi : insertV x rest2 with
          | nil => rfl
          | cons w ws =>
            rw [hi] at hrec
            simpa [chainLeB, Bool.and_eq_true] using hrec
      
theorem allIntB_mem {l : List Value} (h : allIntB l = true) {y : Value} (hy : y ∈ l) :
    ∃ a, y = .int a := by
  have := (List.all_eq_true.mp h) y hy
  cases y with
  | int a => exact ⟨a, rfl⟩
  | _ => simp [isIntV] at this

theorem chainLeB_sortV : ∀ l : List Value, allIntB l = true → chainLeB (sortV l) = true := by
  intro l
  induction l with
  | nil => intro _; rfl
  | cons x rest ih =>
    intro hall
    have hx : isIntV x = true ∧ allIntB rest = true := by
      simpa [allIntB, Bool.and_eq_true] using hall
    apply chainLeB_insertV
    · intro y hy
      have hyr : y ∈ rest := (sortV_perm rest).subset hy
      obtain ⟨b, rfl⟩ := allIntB_mem hx.2 hyr
      obtain ⟨a, rfl⟩ : ∃ a, x = Value.int a := by
        cases x with
        | int a => exact ⟨a, rfl⟩
        | _ => simp [isIntV] at hx
      exact vleB_int_total a b
    · exact ih hx.2

/-- The example program of spec section 8: `let x = 1; fn f() { return x }
x = 2; print(f())`. -/
def progC4 : List Stmt :=
  [.letS "x" (.intLit 1),
   .fnDef "f" [] [.retS (.ident "x")],
   .assignS "x" (.intLit 2),
   .exprS (.call (.ident "print") [.call (.ident "f") []])]

/-- The arms of the match example of spec section 8:
`match 2 { 1 => print("one"), 2 => print("two"), _ => print("other") }`. -/
def armsC1 : List (Pat × Expr) :=
  [(.ilit 1, .call (.ident "print") [.strLit "one"]),
   (.ilit 2, .call (.ident "print") [.strLit "two"]),
   (.wild, .call (.ident "print") [.strLit "other"])]

/-- Claim C1: match arms are tested in declaration order and exactly the body
of the first arm whose pattern matches the subject executes; no later arm is
evaluated.  If arm `i` is the first whose pattern matches `v`, evaluating the
arm list is literally evaluating arm `i`'s body, in the same state. -/
theorem match_first_arm :
    ∀ (arms : List (Pat × Expr)) (i : Nat) (h : i < arms.length) (v : Value),
      patMatches v (arms.get ⟨i, h⟩).1 = true →
      (∀ j (hj : j < i), patMatches v (arms.get ⟨j, Nat.lt_trans hj h⟩).1 = false) →
      ∀ fuel st env, eval (fuel + i + 1) st (.jarms env v arms) =
        eval fuel st (.jexpr env (arms.get ⟨i, h⟩).2) := by
  intro arms
  induction arms with
  | nil => intro i h; exact absurd h (by simp)
  | cons a rest ih =>
    intro i h v hmatch hprev fuel st env
    obtain ⟨p, b⟩ := a
    cases i with
    | zero =>
      have ha : patMatches v p = true := hmatch
      simp only [Nat.add_zero]
      simp only [eval, ha, if_true]
      rfl
    | succ i =>
      have hp0 : patMatches v p = false := hprev 0 (Nat.succ_pos i)
      have harith : fuel + (i + 1) + 1 = (fuel + i + 1) + 1 := by omega
      rw [harith]
      simp only [eval, hp0]
      exact ih i (Nat.lt_of_succ_lt_succ h) v hmatch
        (fun j hj => hprev (j + 1) (Nat.succ_lt_succ hj)) fuel st env

/-- Witness for C1 at the spec's example: with subject 2, the second arm is
the first match and the evaluation equals evaluating `print("two")`; the full
match statement prints exactly the value "two". -/
theorem match_first_arm_witness :
    eval (5 + 1 + 1) initSt (.jarms 0 (.int 2) armsC1) =
      eval 5 initSt (.jexpr 0 (armsC1.get ⟨1, by decide⟩).2)
  ∧ (runProg 20 [.exprS (.matchE (.intLit 2) armsC1)]).1.out = [[.str "two"]] := by
  refine ⟨?_, rfl⟩
  exact match_first_arm armsC1 1 (by decide) (.int 2) (by decide)
    (fun j hj => by
      have hj0 : j = 0 := by omega
      subst hj0
      rfl) 5 initSt 0

/-- One-step unfolding of the evaluator on a match expression. -/
theorem eval_matchE (fuel : Nat) (st : St) (env : Nat) (subj : Expr)
    (arms : List (Pat × Expr)) :
    eval (fuel + 1) st (.jexpr env (.matchE subj arms)) =
      match eval fuel st (.jexpr env subj) with
      | (st1, .norm v) => eval fuel st1 (.jarms env v arms)
      | other => other := rfl

/-- Claim C3: when the subject matches no arm (so in particular no wildcard
is present, since a wildcard matches everything), evaluation of the match
fails with NonExhaustiveMatchError, in both the arm-list form and the full
match-expression form. -/
theorem match_non_exhaustive :
    ∀ (arms : List (Pat × Expr)) (v : Value),
      (∀ a ∈ arms, patMatches v a.1 = false) →
      (∀ fuel st env, eval (fuel + arms.length + 1) st (.jarms env v arms) =
        (st, .err .nonExhaustiveMatchError))
      ∧ (∀ fuel st st1 env subj,
          eval (fuel + arms.length + 1) st (.jexpr env subj) = (st1, .norm v) →
          eval (fuel + arms.length + 2) st (.jexpr env (.matchE subj arms)) =
            (st1, .err .nonExhaustiveMatchError)) := by
  intro arms v hfail
  have main : ∀ fuel st env, eval (fuel + arms.length + 1) st (.jarms env v arms) =
      (st, .err .nonExhaustiveMatchError) := by
    induction arms with
    | nil => intro fuel st env; rfl
    | cons a rest ih =>
      intro fuel st env
      obtain ⟨p, b⟩ := a
      have hp : patMatches v p = false := hfail (p, b) (by simp)
      have harith : fuel + (rest.length + 1) + 1 = (fuel + rest.length + 1) + 1 := by omega
      simp only [List.length_cons]
      rw [harith]
      simp only [eval, hp]
      exact ih (fun a ha => hfail a (by simp [ha])) fuel st env
  refine ⟨main, ?_⟩
  intro fuel st st1 env subj hsubj
  have harith : fuel + arms.length + 2 = (fuel + arms.length + 1) + 1 := by omega
  rw [harith, eval_matchE, hsubj]
  exact main fuel st1 env

/-- Witness for C3 at the spec's example `match 5 { 1 => print("a") }`: the
single non-matching arm yields NonExhaustiveMatchError, and so does the whole
match expression run as a program. -/
theorem match_non_exhaustive_witness :
    eval (0 + 1 + 1) initSt (.jarms 0 (.int 5) [(.ilit 1, .call (.ident "print") [.strLit "a"])]) =
      (initSt, .err .nonExhaustiveMatchError)
  ∧ (runProg 20 [.exprS (.matchE (.intLit 5)
      [(.ilit 1, .call (.ident "print") [.strLit "a"])])]).2 =
      .err .nonExhaustiveMatchError := by
  refine ⟨?_, rfl⟩
  have h := (match_non_exhaustive [(.ilit 1, .call (.ident "print") [.strLit "a"])] (.int 5)
    (by intro a ha; simp at ha; subst ha; decide)).1 0 initSt 0
  exact h

/-- Claim C4: closures capture their defining environment by shared
reference: the program `let x = 1; fn f() { return x } x = 2; print(f())`
prints the Value 2 (the call observes the later assignment) and terminates
normally. -/
theorem closure_capture_by_reference :
    (runProg 30 progC4).1.out = [[Value.int 2]] ∧ (runProg 30 progC4).2 = .norm .null :=
  ⟨rfl, rfl⟩

/-- Claim C8: `+` on two Int literals yields the exact arithmetic sum as an
Int value; on a Float and an Int operand (either order) it yields a Float
value, the Int promoted to Float. -/
theorem int_add_exact_float_promote :
    ∀ (fuel : Nat) (st : St) (env : Nat),
      (∀ a b : Int,
        eval (fuel + 2) st (.jexpr env (.binop .add (.intLit a) (.intLit b))) =
          (st, .norm (.int (a + b))))
      ∧ (∀ (q : Rat) (n : Int),
        eval (fuel + 2) st (.jexpr env (.binop .add (.floatLit q) (.intLit n))) =
          (st, .norm (.float (q + (n : Rat)))))
      ∧ (∀ (q : Rat) (n : Int),
        eval (fuel + 2) st (.jexpr env (.binop .add (.intLit n) (.floatLit q))) =
          (st, .norm (.float ((n : Rat) + q)))) := by
  intro fuel st env
  exact ⟨fun a b => rfl, fun q n => rfl, fun q n => rfl⟩

/-- One-step unfolding of the evaluator on a try/catch statement: the try
body runs in a fresh child frame; a Throw (or a runtime error) binds its
payload in a fresh child scope of the try-block's scope and runs the catch
body; any other outcome passes through, skipping the catch body. -/
theorem eval_tryCatch (fuel : Nat) (st : St) (env : Nat) (tryB : List Stmt)
    (exc : String) (catchB : List Stmt) :
    eval (fuel + 1) st (.jstmt env (.tryCatchS tryB exc catchB)) =
      (match eval fuel (pushFrame st env []).1 (.jstmts (pushFrame st env []).2 tryB) with
       | (st2, .thrw v) =>
         eval fuel (pushFrame st2 (pushFrame st env []).2 [(exc, ⟨v, true⟩)]).1
           (.jstmts (pushFrame st2 (pushFrame st env []).2 [(exc, ⟨v, true⟩)]).2 catchB)
       | (st2, .err er) =>
         eval fuel (pushFrame st2 (pushFrame st env []).2 [(exc, ⟨errValue er, true⟩)]).1
           (.jstmts (pushFrame st2 (pushFrame st env []).2 [(exc, ⟨errValue er, true⟩)]).2 catchB)
       | other => other) := rfl

/-- Claim C2: if the try body raises a Throw signal with payload v, the
try/catch statement evaluates the catch body in a fresh child scope of the
try-block's scope binding the catch identifier to v; if the try body
completes without a Throw, the catch body is skipped and the normal outcome
passes through. -/
theorem try_catch_throw :
    (∀ (fuel : Nat) (st st2 : St) (env : Nat) (tryB : List Stmt) (exc : String)
        (catchB : List Stmt) (v : Value),
      eval fuel (pushFrame st env []).1 (.jstmts (pushFrame st env []).2 tryB) =
        (st2, .thrw v) →
      eval (fuel + 1) st (.jstmt env (.tryCatchS tryB exc catchB)) =
        eval fuel (pushFrame st2 (pushFrame st env []).2 [(exc, ⟨v, true⟩)]).1
          (.jstmts (pushFrame st2 (pushFrame st env []).2 [(exc, ⟨v, true⟩)]).2 catchB))
  ∧ (∀ (fuel : Nat) (st st2 : St) (env : Nat) (tryB : List Stmt) (exc : String)
        (catchB : List Stmt) (u : Value),
      eval fuel (pushFrame st env []).1 (.jstmts (pushFrame st env []).2 tryB) =
        (st2, .norm u) →
      eval (fuel + 1) st (.jstmt env (.tryCatchS tryB exc catchB)) = (st2, .norm u)) := by
  constructor
  · intro fuel st st2 env tryB exc catchB v h
    rw [eval_tryCatch, h]
  · intro fuel st st2 env tryB exc catchB u h
    rw [eval_tryCatch, h]

/-- The try body of the spec example: `throw("fail!")`. -/
def tryBodyC2 : List Stmt := [.exprS (.call (.ident "throw") [.strLit "fail!"])]

/-- The catch body of the spec example: `print("Caught error:", err)`. -/
def catchBodyC2 : List Stmt :=
  [.exprS (.call (.ident "print") [.strLit "Caught error:", .ident "err"])]

/-- The spec example program with a following statement, to observe that
execution continues after the try block. -/
def progC2 : List Stmt :=
  [.tryCatchS tryBodyC2 "err" catchBodyC2,
   .exprS (.call (.ident "print") [.strLit "after"])]

/-- Witness for C2: the thrown "fail!" is caught with `err` bound to it, the
program prints the Values of `print("Caught error:", err)` and then of
`print("after")`, and terminates normally. -/
theorem try_catch_throw_witness :
    eval 11 initSt (.jstmt 0 (.tryCatchS tryBodyC2 "err" catchBodyC2)) =
      eval 10
        (pushFrame ((pushFrame initSt 0 []).1) (pushFrame initSt 0 []).2
          [("err", ⟨.str "fail!", true⟩)]).1
        (.jstmts
          (pushFrame ((pushFrame initSt 0 []).1) (pushFrame initSt 0 []).2
            [("err", ⟨.str "fail!", true⟩)]).2 catchBodyC2)
  ∧ (runProg 30 progC2).1.out = [[.str "Caught error:", .str "fail!"], [.str "after"]]
  ∧ (runProg 30 progC2).2 = .norm .null := by
  refine ⟨?_, rfl, rfl⟩
  exact try_catch_throw.1 10 initSt (pushFrame initSt 0 []).1 0 tryBodyC2 "err"
    catchBodyC2 (.str "fail!") rfl

/-- One-step unfolding of the evaluator on an assignment statement. -/
theorem eval_assignS (fuel : Nat) (st : St) (env : Nat) (x : String) (e : Expr) :
    eval (fuel + 1) st (.jstmt env (.assignS x e)) =
      (match eval fuel st (.jexpr env e) with
       | (st1, .norm v) =>
         match setVar st1 env x v with
         | (st2, none) => (st2, .norm .null)
         | (st2, some er) => (st2, .err er)
       | other => other) := rfl

/-- Claim C5: assignment to a binding introduced as immutable (`const`) fails
with the NameError of the "immutable" kind, and the binding keeps its value:
the resulting state is exactly the state after evaluating the right-hand
side, in which the name still resolves to the same binding. -/
theorem const_reassign_immutable :
    ∀ (fuel : Nat) (st st1 : St) (env : Nat) (x : String) (rhs : Expr) (v : Value)
      (i : Nat) (b : Binding),
      eval fuel st (.jexpr env rhs) = (st1, .norm v) →
      resolve st1 env x = some (i, b) →
      b.mutb = false →
      eval (fuel + 1) st (.jstmt env (.assignS x rhs)) =
        (st1, .err (.nameError "immutable" x))
      ∧ resolve ((eval (fuel + 1) st (.jstmt env (.assignS x rhs))).1) env x = some (i, b) := by
  intro fuel st st1 env x rhs v i b h1 h2 h3
  have hset : setVar st1 env x v = (st1, some (.nameError "immutable" x)) := by
    unfold setVar
    rw [h2]
    simp [h3]
  have hmain : eval (fuel + 1) st (.jstmt env (.assignS x rhs)) =
      (st1, .err (.nameError "immutable" x)) := by
    simp only [eval_assignS, h1, hset]
  exact ⟨hmain, by rw [hmain]; exact h2⟩

/-- A state in which the root frame has a single `const`-style binding of
"b" to the string "hello". -/
def stConstB : St := ⟨[⟨none, [("b", ⟨.str "hello", false⟩)]⟩], []⟩

/-- Witness for C5 at the spec example: after `const b = "hello"`, the
assignment `b = "x"` fails with NameError "immutable" and `b` still resolves
to "hello"; the same failure shows up running the two-statement program. -/
theorem const_reassign_immutable_witness :
    eval 5 stConstB (.jstmt 0 (.assignS "b" (.strLit "x"))) =
      (stConstB, .err (.nameError "immutable" "b"))
  ∧ resolve ((eval 5 stConstB (.jstmt 0 (.assignS "b" (.strLit "x")))).1) 0 "b" =
      some (0, ⟨.str "hello", false⟩)
  ∧ (runProg 20 [.constS "b" (.strLit "hello"), .assignS "b" (.strLit "x")]).2 =
      .err (.nameError "immutable" "b") := by
  have h := const_reassign_immutable 4 stConstB stConstB 0 "b" (.strLit "x")
    (.str "x") 0 ⟨.str "hello", false⟩ rfl rfl rfl
  exact ⟨h.1, h.2, rfl⟩

/-- One-step unfolding of the evaluator on the `sort` built-in. -/
theorem eval_jbuiltin_sort (fuel : Nat) (st : St) (l : List Value) :
    eval (fuel + 1) st (.jbuiltin "sort" [.list l]) = (st, .norm (.list (sortV l))) := rfl

/-- One-step unfolding of the evaluator on a call expression. -/
theorem eval_call (fuel : Nat) (st : St) (env : Nat) (f : Expr) (args : List Expr) :
    eval (fuel + 1) st (.jexpr env (.call f args)) =
      (match eval fuel st (.jexpr env f) with
       | (st1, .norm fv) =>
         match eval fuel st1 (.jargs env args) with
         | (st2, .norm (.list vs)) => eval fuel st2 (.jcall fv vs)
         | (st2, .norm _) => (st2, .err (.typeError "internal"))
         | other => other
       | other => other) := rfl

/-- One-step unfolding of the evaluator on an identifier. -/
theorem eval_ident (fuel : Nat) (st : St) (env : Nat) (x : String) :
    eval (fuel + 1) st (.jexpr env (.ident x)) =
      (match lookupValue st env x with
       | .ok v => (st, .norm v)
       | .error er => (st, .err er)) := rfl

/-- One-step unfolding of the evaluator on a nonempty argument list. -/
theorem eval_jargs_cons (fuel : Nat) (st : St) (env : Nat) (e : Expr) (rest : List Expr) :
    eval (fuel + 1) st (.jargs env (e :: rest)) =
      (match eval fuel st (.jexpr env e) with
       | (st1, .norm v) =>
         match eval fuel st1 (.jargs env rest) with
         | (st2, .norm (.list vs)) => (st2, .norm (.list (v :: vs)))
         | other => other
       | other => other) := rfl

/-- One-step unfolding of the evaluator on an empty argument list. -/
theorem eval_jargs_nil (fuel : Nat) (st : St) (env : Nat) :
    eval (fuel + 1) st (.jargs env []) = (st, .norm (.list [])) := rfl

/-- One-step unfolding of the evaluator on a native-function call. -/
theorem eval_jcall_native (fuel : Nat) (st : St) (name : String) (args : List Value) :
    eval (fuel + 1) st (.jcall (.native name) args) = eval fuel st (.jbuiltin name args) := rfl

/-- Claim C6: the `sort` built-in is value-returning, not in-place: applying
it leaves the interpreter state (hence every binding) untouched and returns a
new list that is a sorted permutation of its argument; calling `sort` on a
name bound to a list returns the sorted copy while the state, including that
binding, is unchanged. -/
theorem sort_value_returning :
    (∀ (fuel : Nat) (st : St) (l : List Value),
      eval (fuel + 1) st (.jbuiltin "sort" [.list l]) = (st, .norm (.list (sortV l))))
  ∧ (∀ l : List Value, (sortV l).Perm l)
  ∧ (∀ l : List Value, allIntB l = true → chainLeB (sortV l) = true)
  ∧ (∀ (fuel : Nat) (st : St) (env : Nat) (x : String) (l : List Value),
      lookupValue st env x = .ok (.list l) →
      lookupValue st env "sort" = .ok (.native "sort") →
      eval (fuel + 3) st (.jexpr env (.call (.ident "sort") [.ident x])) =
        (st, .norm (.list (sortV l)))) := by
  refine ⟨fun fuel st l => rfl, sortV_perm, chainLeB_sortV, ?_⟩
  intro fuel st env x l h1 h2
  simp only [show (fuel + 3 : Nat) = (fuel + 2) + 1 from rfl,
    show (fuel + 2 : Nat) = (fuel + 1) + 1 from rfl,
    eval_call, eval_ident, eval_jargs_cons, eval_jargs_nil, eval_jcall_native,
    eval_jbuiltin_sort, h1, h2]

/-- The program `let l = [3,1,2]; let s = sort(l)`. -/
def progC6 : List Stmt :=
  [.letS "l" (.listLit [.intLit 3, .intLit 1, .intLit 2]),
   .letS "s" (.call (.ident "sort") [.ident "l"])]

/-- A state in which the root frame binds "l" to the list [3, 1, 2]. -/
def stListL : St := ⟨[⟨none, [("l", ⟨.list [.int 3, .int 1, .int 2], true⟩)]⟩], []⟩

/-- Witness for C6: sorting [3,1,2] yields [1,2,3] with the state untouched,
the result is a sorted permutation, a call through the binding "l" returns
the sorted copy leaving the state unchanged, and after running
`let l = [3,1,2]; let s = sort(l)` the binding "l" still holds [3,1,2] while
"s" holds [1,2,3]. -/
theorem sort_value_returning_witness :
    eval 5 initSt (.jbuiltin "sort" [.list [.int 3, .int 1, .int 2]]) =
      (initSt, .norm (.list [.int 1, .int 2, .int 3]))
  ∧ (sortV [.int 3, .int 1, .int 2]).Perm [.int 3, .int 1, .int 2]
  ∧ chainLeB (sortV [.int 3, .int 1, .int 2]) = true
  ∧ eval 3 stListL (.jexpr 0 (.call (.ident "sort") [.ident "l"])) =
      (stListL, .norm (.list [.int 1, .int 2, .int 3]))
  ∧ (resolve (runProg 30 progC6).1 0 "l").map (fun p => p.2.val) =
      some (.list [.int 3, .int 1, .int 2])
  ∧ (resolve (runProg 30 progC6).1 0 "s").map (fun p => p.2.val) =
      some (.list [.int 1, .int 2, .int 3]) := by
  refine ⟨sort_value_returning.1 4 initSt _, sort_value_returning.2.1 _,
    sort_value_returning.2.2.1 _ rfl, sort_value_returning.2.2.2 0 stListL 0 "l"
      [.int 3, .int 1, .int 2] rfl rfl, rfl, rfl⟩

/-- Syntactically pure expressions: no calls (hence no I/O and no built-in
mutation) and no assignment forms; these are the expressions whose
evaluation performs no I/O and no mutation. -/
inductive PureE : Expr → Prop where
| intLit (n : Int) : PureE (.intLit n)
| floatLit (q : Rat) : PureE (.floatLit q)
| strLit (s : String) : PureE (.strLit s)
| boolLit (b : Bool) : PureE (.boolLit b)
| nullLit : PureE .nullLit
| ident (x : String) : PureE (.ident x)
| binop (op : BinOp) (l r : Expr) : PureE l → PureE r → PureE (.binop op l r)
| listLit (es : List Expr) : (∀ e ∈ es, PureE e) → PureE (.listLit es)
| lambda (ps : List String) (body : List Stmt) : PureE (.lambda ps body)
| matchE (subj : Expr) (arms : List (Pat × Expr)) :
    PureE subj → (∀ a ∈ arms, PureE a.2) → PureE (.matchE subj arms)

/-- Frame property of pure expressions: evaluating a pure expression (or a
list of pure expressions, or match arms with pure bodies) never changes the
interpreter state, at every fuel. -/
theorem pure_frame : ∀ fuel : Nat,
    (∀ (st : St) (env : Nat) (e : Expr), PureE e →
      (eval fuel st (.jexpr env e)).1 = st)
  ∧ (∀ (st : St) (env : Nat) (es : List Expr), (∀ e ∈ es, PureE e) →
      (eval fuel st (.jargs env es)).1 = st)
  ∧ (∀ (st : St) (env : Nat) (v : Value) (arms : List (Pat × Expr)),
      (∀ a ∈ arms, PureE a.2) →
      (eval fuel st (.jarms env v arms)).1 = st) := by
  intro fuel
  induction fuel with
  | zero =>
    exact ⟨fun st env e _ => rfl, fun st env es _ => rfl, fun st env v arms _ => rfl⟩
  | succ fuel ih =>
    obtain ⟨ihE, ihA, ihM⟩ := ih
    have hE : ∀ (st : St) (env : Nat) (e : Expr), PureE e →
        (eval (fuel + 1) st (.jexpr env e)).1 = st := by
      intro st env e hp
      cases hp with
      | intLit n => rfl
      | floatLit q => rfl
      | strLit s => rfl
      | boolLit b => rfl
      | nullLit => rfl
      | lambda ps body => rfl
      | ident x =>
        simp only [eval]
        cases lookupValue st env x with
        | ok v => rfl
        | error er => rfl
      | binop op l r hl hr =>
        simp only [eval]
        rcases e1 : eval fuel st (.jexpr env l) with ⟨st1, c1⟩
        have hst1 : st = st1 := by
          have := ihE st env l hl
          rw [e1] at this
          exact this.symm
        subst hst1
        cases c1 with
        | norm a =>
          dsimp only
          rcases e2 : eval fuel st (.jexpr env r) with ⟨st2, c2⟩
          have hst2 : st = st2 := by
            have := ihE st env r hr
            rw [e2] at this
            exact this.symm
          subst hst2
          cases c2 with
          | norm b =>
            dsimp only
            cases applyBin fuel op a b with
            | ok v => rfl
            | error er => rfl
          | ret v => rfl
          | brk => rfl
          | cont => rfl
          | thrw v => rfl
          | err er => rfl
          | fuelOut => rfl
        | ret v => rfl
        | brk => rfl
        | cont => rfl
        | thrw v => rfl
        | err er => rfl
        | fuelOut => rfl
      | listLit es hes =>
        simp only [eval]
        exact ihA st env es hes
      | matchE subj arms hs ha =>
        simp only [eval]
        rcases e1 : eval fuel st (.jexpr env subj) with ⟨st1, c1⟩
        have hst1 : st = st1 := by
          have := ihE st env subj hs
          rw [e1] at this
          exact this.symm
        subst hst1
        cases c1 with
        | norm v => exact ihM st env v arms ha
        | ret v => rfl
        | brk => rfl
        | cont => rfl
        | thrw v => rfl
        | err er => rfl
        | fuelOut => rfl
    have hA : ∀ (st : St) (env : Nat) (es : List Expr), (∀ e ∈ es, PureE e) →
        (eval (fuel + 1) st (.jargs env es)).1 = st := by
      intro st env es hes
      cases es with
      | nil => rfl
      | cons e rest =>
        simp only [eval]
        rcases e1 : eval fuel st (.jexpr env e) with ⟨st1, c1⟩
        have hst1 : st = st1 := by
          have := ihE st env e (hes e (by simp))
          rw [e1] at this
          exact this.symm
        subst hst1
        cases c1 with
        | norm v =>
          dsimp only
          rcases e2 : eval fuel st (.jargs env rest) with ⟨st2, c2⟩
          have hst2 : st = st2 := by
            have := ihA st env rest (fun x hx => hes x (by simp [hx]))
            rw [e2] at this
            exact this.symm
          subst hst2
          cases c2 with
          | norm w =>
            cases w with
            | list vs => rfl
            | int n => rfl
            | float q => rfl
            | str s => rfl
            | bool b => rfl
            | null => rfl
            | closure ps body envc => rfl
            | native n => rfl
          | ret v => rfl
          | brk => rfl
          | cont => rfl
          | thrw v => rfl
          | err er => rfl
          | fuelOut => rfl
        | ret v => rfl
        | brk => rfl
        | cont => rfl
        | thrw v => rfl
        | err er => rfl
        | fuelOut => rfl
    have hM : ∀ (st : St) (env : Nat) (v : Value) (arms : List (Pat × Expr)),
        (∀ a ∈ arms, PureE a.2) → (eval (fuel + 1) st (.jarms env v arms)).1 = st := by
      intro st env v arms ha
      cases arms with
      | nil => rfl
      | cons a rest =>
        obtain ⟨p, b⟩ := a
        simp only [eval]
        by_cases hm : patMatches v p = true
        · simp only [hm, if_true]
          exact ihE st env b (ha (p, b) (by simp))
        · simp only [hm, if_false]
          exact ihM st env v rest (fun x hx => ha x (by simp [hx]))
    exact ⟨hE, hA, hM⟩

/-- Claim C9: evaluation of pure expressions is deterministic across runs:
evaluating a pure expression leaves the state unchanged, so evaluating it a
second time from the resulting state is literally the same evaluation and
yields an identical result Value (or identical error). -/
theorem pure_eval_deterministic :
    ∀ (fuel : Nat) (st : St) (env : Nat) (e : Expr), PureE e →
      (eval fuel st (.jexpr env e)).1 = st
      ∧ eval fuel ((eval fuel st (.jexpr env e)).1) (.jexpr env e) =
          eval fuel st (.jexpr env e) := by
  intro fuel st env e hp
  have h := (pure_frame fuel).1 st env e hp
  exact ⟨h, by rw [h]⟩

/-- Witness for C9 on the pure expression `1 + 2`: it is pure, leaves the
initial state unchanged and evaluates to the same result when re-evaluated. -/
theorem pure_eval_deterministic_witness :
    PureE (.binop .add (.intLit 1) (.intLit 2))
    ∧ (eval 3 initSt (.jexpr 0 (.binop .add (.intLit 1) (.intLit 2)))).1 = initSt
    ∧ eval 3 ((eval 3 initSt (.jexpr 0 (.binop .add (.intLit 1) (.intLit 2)))).1)
        (.jexpr 0 (.binop .add (.intLit 1) (.intLit 2))) =
      eval 3 initSt (.jexpr 0 (.binop .add (.intLit 1) (.intLit 2))) := by
  have hp : PureE (.binop .add (.intLit 1) (.intLit 2)) :=
    .binop .add _ _ (.intLit 1) (.intLit 2)
  have h := pure_eval_deterministic 3 initSt 0 _ hp
  exact ⟨hp, h.1, h.2⟩

/-- The result of `splitChF` does not depend on the fuel once the fuel
covers the input length. -/
theorem splitChF_stable (sep : List Char) :
    ∀ (fu1 fu2 : Nat) (s : List Char), s.length ≤ fu1 → s.length ≤ fu2 →
      splitChF sep fu1 s = splitChF sep fu2 s := by
  intro fu1
  induction fu1 with
  | zero =>
    intro fu2 s h1 h2
    cases s with
    | nil => cases fu2 <;> rfl
    | cons a s => simp at h1
  | succ fu ih =>
    intro fu2 s h1 h2
    cases s with
    | nil => cases fu2 <;> rfl
    | cons a s =>
      cases fu2 with
      | zero => simp at h2
      | succ fu2 =>
        simp only [splitChF]
        by_cases hc : sep ≠ [] ∧ sep.isPrefixOf (a :: s) = true
        · rw [if_pos hc, if_pos hc]
          have hsep : 1 ≤ sep.length := List.length_pos.mpr hc.1
          simp only [List.length_cons] at h1 h2
          have hlen1 : ((a :: s).drop sep.length).length ≤ fu := by
            simp only [List.length_drop, List.length_cons]
            omega
          have hlen2 : ((a :: s).drop sep.length).length ≤ fu2 := by
            simp only [List.length_drop, List.length_cons]
            omega
          rw [ih fu2 _ hlen1 hlen2]
        · rw [if_neg hc, if_neg hc]
          simp only [List.length_cons] at h1 h2
          rw [ih fu2 s (by omega) (by omega)]

/-- Unfolding `splitCh` when the separator occurs at the head. -/
theorem splitCh_cons_pos (sep : List Char) (a : Char) (s : List Char)
    (h1 : sep ≠ []) (h2 : sep.isPrefixOf (a :: s) = true) :
    splitCh sep (a :: s) = [] :: splitCh sep ((a :: s).drop sep.length) := by
  unfold splitCh
  simp only [List.length_cons, splitChF]
  rw [if_pos ⟨h1, h2⟩]
  congr 1
  apply splitChF_stable
  · simp only [List.length_drop, List.length_cons]
    have hsep : 1 ≤ sep.length := List.length_pos.mpr h1
    omega
  · exact le_refl _

/-- Unfolding `splitCh` when the separator does not occur at the head. -/
theorem splitCh_cons_neg (sep : List Char) (a : Char) (s : List Char)
    (h : ¬(sep ≠ [] ∧ sep.isPrefixOf (a :: s) = true)) :
    splitCh sep (a :: s) =
      match splitCh sep s with
      | [] => [[a]]
      | t :: ts => (a :: t) :: ts := by
  unfold splitCh
  simp only [List.length_cons, splitChF]
  rw [if_neg h]

/-- Splitting a piece that does not contain the one-character separator
returns the piece whole. -/
theorem splitCh_no_sep (c : Char) : ∀ x : List Char, c ∉ x → splitCh [c] x = [x] := by
  intro x
  induction x with
  | nil => intro _; rfl
  | cons a s ih =>
    intro hc
    have hca : ¬(c = a) ∧ c ∉ s := by simpa [not_or] using hc
    have hpre : [c].isPrefixOf (a :: s) = false := by
      simp only [List.isPrefixOf, Bool.and_true]
      exact beq_eq_false_iff_ne.mpr hca.1
    rw [splitCh_cons_neg _ _ _ (by simp [hpre]), ih hca.2]

/-- Splitting past a piece that does not contain the one-character separator
peels off exactly that piece. -/
theorem splitCh_append_sep (c : Char) :
    ∀ (x r : List Char), c ∉ x →
      splitCh [c] (x ++ c :: r) = x :: splitCh [c] r := by
  intro x
  induction x with
  | nil =>
    intro r _
    rw [List.nil_append,
      splitCh_cons_pos [c] c r (by simp) (by simp [List.isPrefixOf])]
    simp
  | cons a s ih =>
    intro r hc
    have hca : ¬(c = a) ∧ c ∉ s := by simpa [not_or] using hc
    have hpre : [c].isPrefixOf (a :: (s ++ c :: r)) = false := by
      simp only [List.isPrefixOf, Bool.and_true]
      exact beq_eq_false_iff_ne.mpr hca.1
    rw [List.cons_append, splitCh_cons_neg _ _ _ (by simp [hpre]), ih r hca.2]

/-- Round trip at the character level: splitting the join of a nonempty list
of pieces, none containing the one-character separator, recovers the list. -/
theorem splitCh_joinChars (c : Char) :
    ∀ ls : List (List Char), ls ≠ [] → (∀ x ∈ ls, c ∉ x) →
      splitCh [c] (joinChars [c] ls) = ls := by
  intro ls
  induction ls with
  | nil => intro h; exact absurd rfl h
  | cons x rest ih =>
    intro _ hall
    cases rest with
    | nil => exact splitCh_no_sep c x (hall x (by simp))
    | cons y rest2 =>
      have hj : joinChars [c] (x :: y :: rest2) = x ++ c :: joinChars [c] (y :: rest2) := by
        simp [joinChars]
      rw [hj, splitCh_append_sep c x _ (hall x (by simp)),
        ih (by simp) (fun z hz => hall z (by simp [hz]))]

/-- One-step unfolding of the evaluator on the `split` built-in. -/
theorem eval_jbuiltin_split (fuel : Nat) (st : St) (s sep : String) :
    eval (fuel + 1) st (.jbuiltin "split" [.str s, .str sep]) =
      (st, .norm (.list (splitS s sep))) := rfl

/-- Claim C7 (amended): for every nonempty list of strings and every
one-character separator contained in none of them, `split` applied to the
`join` of the list with that separator returns exactly the original list of
string Values, both at the level of the built-in helper functions and through
the evaluator. -/
theorem split_join_roundtrip_amended :
    ∀ (ss : List String) (c : Char), ss ≠ [] → (∀ s ∈ ss, c ∉ s.data) →
      splitS (joinS (ss.map Value.str) (String.mk [c])) (String.mk [c]) = ss.map Value.str
      ∧ ∀ (fuel : Nat) (st : St),
          eval (fuel + 1) st (.jbuiltin "split"
            [.str (joinS (ss.map Value.str) (String.mk [c])), .str (String.mk [c])]) =
            (st, .norm (.list (ss.map Value.str))) := by
  intro ss c hne hnc
  have key : splitS (joinS (ss.map Value.str) (String.mk [c])) (String.mk [c]) =
      ss.map Value.str := by
    unfold splitS joinS
    have hmapchars : (ss.map Value.str).map valChars = ss.map String.data := by
      rw [List.map_map]
      exact List.map_congr_left (fun a _ => rfl)
    rw [hmapchars]
    have hd1 : (String.mk [c]).data = [c] := rfl
    have hd2 : ∀ cs : List Char, (String.mk cs).data = cs := fun _ => rfl
    rw [hd1, hd2]
    rw [splitCh_joinChars c (ss.map String.data) (by simpa using hne)
      (by
        intro x hx
        obtain ⟨t, ht, rfl⟩ := List.mem_map.mp hx
        exact hnc t ht)]
    rw [List.map_map]
    exact List.map_congr_left (fun a _ => rfl)
  exact ⟨key, fun fuel st => by rw [eval_jbuiltin_split, key]⟩

/-- Counterexample to C7 as stated: the round trip fails on the empty list
(split of the empty string returns [""]), and fails for multi-character
separators that straddle element boundaries, here join(["a","b"], "aa") =
"aaab" whose leftmost "aa" occurrence begins inside the first element even
though neither "a" nor "b" contains "aa". -/
theorem split_join_roundtrip_cex :
    splitS (joinS [] "-") "-" = [.str ""]
    ∧ ([Value.str ""] ≠ ([] : List Value))
    ∧ splitS (joinS [.str "a", .str "b"] "aa") "aa" = [.str "", .str "ab"]
    ∧ ([Value.str "", Value.str "ab"] ≠ [Value.str "a", Value.str "b"])
    ∧ ¬ ("aa".data <:+: "a".data) ∧ ¬ ("aa".data <:+: "b".data) := by
  refine ⟨rfl, by simp, rfl, ?_, ?_, ?_⟩
  · intro h
    simp [Value.str.injEq] at h
  · intro h
    exact absurd h.length_le (by decide)
  · intro h
    exact absurd h.length_le (by decide)

/-- Witness for the amended C7 at the spec's example: the round trip holds
for ["a","b","c"] with separator "-". -/
theorem split_join_roundtrip_amended_witness :
    splitS (joinS (["a", "b", "c"].map Value.str) (String.mk ['-'])) (String.mk ['-']) =
      ["a", "b", "c"].map Value.str
    ∧ eval 5 initSt (.jbuiltin "split"
        [.str (joinS (["a", "b", "c"].map Value.str) (String.mk ['-'])),
         .str (String.mk ['-'])]) =
      (initSt, .norm (.list (["a", "b", "c"].map Value.str))) := by
  have h := split_join_roundtrip_amended ["a", "b", "c"] (Char.ofNat 45) (by simp) (by decide)
  exact ⟨h.1, h.2 4 initSt⟩

/-- One-step unfolding of the evaluator on the `map` built-in. -/
theorem eval_jbuiltin_map (fuel : Nat) (st : St) (l : List Value) (f : Value) :
    eval (fuel + 1) st (.jbuiltin "map" [.list l, f]) = eval fuel st (.jmap f l) := rfl

/-- One-step unfolding of the evaluator on the `filter` built-in. -/
theorem eval_jbuiltin_filter (fuel : Nat) (st : St) (l : List Value) (f : Value) :
    eval (fuel + 1) st (.jbuiltin "filter" [.list l, f]) = eval fuel st (.jfilter f l) := rfl

/-- The map loop applies the function value to each element in order,
collecting the results; with calls that produce `g x` and no output, the
result is exactly `l.map g` and the output channel is untouched. -/
theorem jmap_spec (f : Value) (g : Value → Value) (N : Nat) :
    ∀ (l : List Value),
      (∀ (fu : Nat) (st1 : St) (x : Value), x ∈ l → N ≤ fu →
        ∃ st2, eval fu st1 (.jcall f [x]) = (st2, .norm (g x)) ∧ st2.out = st1.out) →
      ∀ (fuel : Nat) (st : St), N + l.length + 1 ≤ fuel →
        ∃ stF, eval fuel st (.jmap f l) = (stF, .norm (.list (l.map g)))
          ∧ stF.out = st.out := by
  intro l
  induction l with
  | nil =>
    intro hf fuel st hfu
    obtain ⟨k, rfl⟩ : ∃ k, fuel = k + 1 := ⟨fuel - 1, by omega⟩
    exact ⟨st, rfl, rfl⟩
  | cons x rest ih =>
    intro hf fuel st hfu
    obtain ⟨k, rfl⟩ : ∃ k, fuel = k + 1 := ⟨fuel - 1, by omega⟩
    simp only [List.length_cons] at hfu
    obtain ⟨st2, hcall, hout⟩ := hf k st x (by simp) (by omega)
    obtain ⟨stF, hrest, houtF⟩ :=
      ih (fun fu st1 y hy hN => hf fu st1 y (by simp [hy]) hN) k st2 (by omega)
    refine ⟨stF, ?_, by rw [houtF, hout]⟩
    simp only [eval, hcall, hrest, List.map_cons]

/-- The filter loop applies the function value to each element in order and
keeps, in order, exactly the elements on which the result is truthy. -/
theorem jfilter_spec (f : Value) (g : Value → Value) (N : Nat) :
    ∀ (l : List Value),
      (∀ (fu : Nat) (st1 : St) (x : Value), x ∈ l → N ≤ fu →
        ∃ st2, eval fu st1 (.jcall f [x]) = (st2, .norm (g x)) ∧ st2.out = st1.out) →
      ∀ (fuel : Nat) (st : St), N + l.length + 1 ≤ fuel →
        ∃ stF, eval fuel st (.jfilter f l) =
            (stF, .norm (.list (l.filter (fun x => truthyB (g x)))))
          ∧ stF.out = st.out := by
  intro l
  induction l with
  | nil =>
    intro hf fuel st hfu
    obtain ⟨k, rfl⟩ : ∃ k, fuel = k + 1 := ⟨fuel - 1, by omega⟩
    exact ⟨st, rfl, rfl⟩
  | cons x rest ih =>
    intro hf fuel st hfu
    obtain ⟨k, rfl⟩ : ∃ k, fuel = k + 1 := ⟨fuel - 1, by omega⟩
    simp only [List.length_cons] at hfu
    obtain ⟨st2, hcall, hout⟩ := hf k st x (by simp) (by omega)
    obtain ⟨stF, hrest, houtF⟩ :=
      ih (fun fu st1 y hy hN => hf fu st1 y (by simp [hy]) hN) k st2 (by omega)
    refine ⟨stF, ?_, by rw [houtF, hout]⟩
    by_cases ht : truthyB (g x) = true
    · simp only [eval, hcall, hrest, List.filter_cons, ht, if_true]
    · simp only [eval, hcall, hrest, List.filter_cons, ht, if_false]
      simp only [Bool.not_eq_true] at ht
      simp [ht]

/-- The function value in `find(arr2, fn(x) { return x > 15 })`. -/
def gt15Fn : Value := .closure ["x"] [.retS (.binop .gt (.ident "x") (.intLit 15))] 0

/-- The function value in `reduce(arr, fn(acc, x) { return acc + x }, 0)`. -/
def addFn : Value := .closure ["acc", "x"] [.retS (.binop .add (.ident "acc") (.ident "x"))] 0

/-- The function value in `all(nums, fn(x) { return x > 0 })`. -/
def gt0Fn : Value := .closure ["x"] [.retS (.binop .gt (.ident "x") (.intLit 0))] 0

/-- The function value in `any(nums, fn(x) { return x == 3 })`. -/
def eq3Fn : Value := .closure ["x"] [.retS (.binop .eq (.ident "x") (.intLit 3))] 0

/-- The length of a string Value, as the `len` built-in computes it. -/
def lenOfV : Value → Value
  | .str s => .int (s.length : Int)
  | _ => .null

/-- Claim C10: every higher-order built-in takes the sequence first and the
function value second (reduce takes the initial accumulator third): `map`
returns the list of the function applied to each element in order, `filter`
keeps in order exactly the elements whose image is truthy, and `find`,
`reduce`, `all`, `any` behave as on the example program's calls. -/
theorem higher_order_builtins :
    (∀ (l : List Value) (f : Value) (g : Value → Value) (N : Nat),
      (∀ (fu : Nat) (st1 : St) (x : Value), x ∈ l → N ≤ fu →
        ∃ st2, eval fu st1 (.jcall f [x]) = (st2, .norm (g x)) ∧ st2.out = st1.out) →
      ∀ (fuel : Nat) (st : St), N + l.length + 2 ≤ fuel →
        ∃ stF, eval fuel st (.jbuiltin "map" [.list l, f]) =
            (stF, .norm (.list (l.map g))) ∧ stF.out = st.out)
  ∧ (∀ (l : List Value) (f : Value) (g : Value → Value) (N : Nat),
      (∀ (fu : Nat) (st1 : St) (x : Value), x ∈ l → N ≤ fu →
        ∃ st2, eval fu st1 (.jcall f [x]) = (st2, .norm (g x)) ∧ st2.out = st1.out) →
      ∀ (fuel : Nat) (st : St), N + l.length + 2 ≤ fuel →
        ∃ stF, eval fuel st (.jbuiltin "filter" [.list l, f]) =
            (stF, .norm (.list (l.filter (fun x => truthyB (g x))))) ∧ stF.out = st.out)
  ∧ (eval 20 initSt (.jbuiltin "find"
      [.list [.int 10, .int 20, .int 30, .int 40], gt15Fn])).2 = .norm (.int 20)
  ∧ (eval 20 initSt (.jbuiltin "reduce"
      [.list [.int 1, .int 2, .int 3, .int 4], addFn, .int 0])).2 = .norm (.int 10)
  ∧ (eval 20 initSt (.jbuiltin "all"
      [.list [.int 1, .int 2, .int 3], gt0Fn])).2 = .norm (.bool true)
  ∧ (eval 20 initSt (.jbuiltin "any"
      [.list [.int 1, .int 2, .int 3], eq3Fn])).2 = .norm (.bool true) := by
  refine ⟨?_, ?_, rfl, rfl, rfl, rfl⟩
  · intro l f g N hf fuel st hfu
    obtain ⟨k, rfl⟩ : ∃ k, fuel = k + 1 := ⟨fuel - 1, by omega⟩
    obtain ⟨stF, he, ho⟩ := jmap_spec f g N l hf k st (by omega)
    exact ⟨stF, by rw [eval_jbuiltin_map]; exact he, ho⟩
  · intro l f g N hf fuel st hfu
    obtain ⟨k, rfl⟩ : ∃ k, fuel = k + 1 := ⟨fuel - 1, by omega⟩
    obtain ⟨stF, he, ho⟩ := jfilter_spec f g N l hf k st (by omega)
    exact ⟨stF, by rw [eval_jbuiltin_filter]; exact he, ho⟩

/-- Witness for C10: mapping the native `len` over ["a","bb","ccc"] yields
[1,2,3] with no output, and filtering by `len` (all lengths truthy) keeps the
whole list. -/
theorem higher_order_builtins_witness :
    (∃ stF, eval 10 initSt (.jbuiltin "map"
        [.list [.str "a", .str "bb", .str "ccc"], .native "len"]) =
        (stF, .norm (.list [.int 1, .int 2, .int 3]))
      ∧ stF.out = ([] : List (List Value)))
    ∧ (∃ stF, eval 10 initSt (.jbuiltin "filter"
        [.list [.str "a", .str "bb", .str "ccc"], .native "len"]) =
        (stF, .norm (.list [.str "a", .str "bb", .str "ccc"]))
      ∧ stF.out = ([] : List (List Value))) := by
  have hf : ∀ (fu : Nat) (st1 : St) (x : Value),
      x ∈ [Value.str "a", Value.str "bb", Value.str "ccc"] → 2 ≤ fu →
      ∃ st2, eval fu st1 (.jcall (.native "len") [x]) = (st2, .norm (lenOfV x))
        ∧ st2.out = st1.out := by
    intro fu st1 x hx hN
    obtain ⟨k, rfl⟩ : ∃ k, fu = k + 2 := ⟨fu - 2, by omega⟩
    refine ⟨st1, ?_, rfl⟩
    simp only [List.mem_cons, List.not_mem_nil, or_false] at hx
    rcases hx with rfl | rfl | rfl <;> rfl
  constructor
  · obtain ⟨stF, he, ho⟩ := higher_order_builtins.1
      [Value.str "a", Value.str "bb", Value.str "ccc"] (.native "len") lenOfV 2 hf
      10 initSt (by simp)
    exact ⟨stF, he, ho⟩
  · obtain ⟨stF, he, ho⟩ := higher_order_builtins.2.1
      [Value.str "a", Value.str "bb", Value.str "ccc"] (.native "len") lenOfV 2 hf
      10 initSt (by simp)
    exact ⟨stF, he, ho⟩

end StelLang
